import Mathlib

/-!
Shallow embedding of the agent's control loop: the managed-shell registry
(`runningProcesses`), per-shell output buffers (`processOutputBuffer`),
command-executed flags (`processCommandExecuted`), the ack ledger
(`pendingCallbacks.process_death` / `process_created`), the task executor
(`processTasks`), the heartbeat engine (`sendHeartbeat`) and the scheduler
(`scheduleNextHeartbeat`).  JS `Map`s are modelled as association lists,
shell ids as naturals, JS strings as Lean strings.
-/

namespace AgentClient

/-- Shell ids (`ptyProcess.pid.toString()`); modelled as naturals. -/
abbrev Pid := Nat

/-- Per-shell mutable attributes stored on the pty handle
(`ptyProcess.workingDirectory`, `ptyProcess._expectPwd`). -/
structure Shell where
  workingDirectory : String
  expectPwd : Bool
  deriving DecidableEq, Repr

/-- The `status` field of `lastHeartbeatStatus`. -/
inductive HbStatus
  | notYetSent
  | success
  | failed
  deriving DecidableEq, Repr

section AssocMap

variable {β : Type}

/-- `Map.get` on a JS `Map` modelled as an association list. -/
def mapGet (k : Pid) : List (Pid × β) → Option β
  | [] => none
  | (k', v) :: t => if k = k' then some v else mapGet k t

/-- `Map.set`: replace the binding if present, else insert at the end. -/
def mapSet (k : Pid) (v : β) : List (Pid × β) → List (Pid × β)
  | [] => [(k, v)]
  | (k', v') :: t => if k = k' then (k, v) :: t else (k', v') :: mapSet k v t

/-- `Map.delete` (removes every binding of the key). -/
def mapDelete (k : Pid) : List (Pid × β) → List (Pid × β)
  | [] => []
  | (k', v') :: t => if k = k' then mapDelete k t else (k', v') :: mapDelete k t

/-- `Map.has`. -/
def mapHas (k : Pid) (l : List (Pid × β)) : Bool := (mapGet k l).isSome

end AssocMap

/-- Whitespace as stripped by JS `String.prototype.trim` (ASCII part). -/
def isJsSpace (c : Char) : Bool :=
  c = ' ' || c = '\t' || c = '\n' || c = '\r'

/-- JS `s.trim()`. -/
def jsTrim (s : String) : String :=
  String.mk (((s.data.dropWhile isJsSpace).reverse.dropWhile isJsSpace).reverse)

/-- Helper for `splitNl`: accumulates the current segment in reverse. -/
def splitNlAux : List Char → List Char → List String
  | [], acc => [String.mk acc.reverse]
  | c :: t, acc =>
    if c = '\n' then String.mk acc.reverse :: splitNlAux t []
    else splitNlAux t (c :: acc)

/-- JS `s.split('\n')`. -/
def splitNl (s : String) : List String := splitNlAux s.data []

/-- JS `Array.prototype.join(sep)`. -/
def joinSep (sep : String) : List String → String
  | [] => ""
  | [x] => x
  | x :: y :: t => x ++ sep ++ joinSep sep (y :: t)

/-- JS `s.startsWith(pre)`. -/
def strStartsWith (s pre : String) : Bool := pre.data.isPrefixOf s.data

/-- JS `s.includes(c)` for a single character. -/
def strContains (s : String) (c : Char) : Bool := s.data.contains c

/-- Index of the last occurrence of `sub` in `s` (JS `lastIndexOf`),
`none` when `sub` does not occur. -/
def listLastIndexOf (s sub : List Char) : Option Nat :=
  ((List.range (s.length + 1)).filter (fun i => sub.isPrefixOf (s.drop i))).getLast?

/-- JS `s.substring(0, s.lastIndexOf(sub))` (clamping `-1` to `0`). -/
def takeBeforeLast (s sub : String) : String :=
  match listLastIndexOf s.data sub.data with
  | some i => String.mk (s.data.take i)
  | none => ""

/-- The path test of `handleProcessOutput`:
`possiblePath.startsWith('/') || /^[A-Z]:\\/.test(possiblePath)`. -/
def looksLikePath (s : String) : Bool :=
  strStartsWith s "/" ||
  (match s.data with
   | c1 :: c2 :: c3 :: _ =>
     (decide ('A' ≤ c1) && decide (c1 ≤ 'Z')) && c2 = ':' && c3 = '\x5c'
   | _ => false)

/-- The `possiblePath` computation of `handleProcessOutput`:
`output.trim().split('\n')`, last element, trimmed. -/
def lastTrimmedLine (output : String) : String :=
  jsTrim ((splitNl (jsTrim output)).getLastD "")

/-- Value of a hex digit, for the `\uXXXX` escapes of `JSON.parse`. -/
def hexDigit (c : Char) : Option Nat :=
  if '0' ≤ c ∧ c ≤ '9' then some (c.toNat - '0'.toNat)
  else if 'a' ≤ c ∧ c ≤ 'f' then some (c.toNat - 'a'.toNat + 10)
  else if 'A' ≤ c ∧ c ≤ 'F' then some (c.toNat - 'A'.toNat + 10)
  else none

/-- Body of a JSON string literal: the characters after the opening quote.
Returns the decoded content and the characters after the closing quote.
Surrogate pairing of `\u` escapes is not modelled (no claim exercises it). -/
def jsonStrChars : List Char → Option (List Char × List Char)
  | [] => none
  | c :: rest =>
    if c = '\x22' then some ([], rest)
    else if c = '\x5c' then
      match rest with
      | [] => none
      | e :: rest' =>
        if e = '\x22' ∨ e = '\x5c' ∨ e = '/' then
          (jsonStrChars rest').map (fun p => (e :: p.1, p.2))
        else if e = 'b' then (jsonStrChars rest').map (fun p => ('\x08' :: p.1, p.2))
        else if e = 'f' then (jsonStrChars rest').map (fun p => ('\x0c' :: p.1, p.2))
        else if e = 'n' then (jsonStrChars rest').map (fun p => ('\n' :: p.1, p.2))
        else if e = 'r' then (jsonStrChars rest').map (fun p => ('\r' :: p.1, p.2))
        else if e = 't' then (jsonStrChars rest').map (fun p => ('\t' :: p.1, p.2))
        else if e = 'u' then
          match rest' with
          | h1 :: h2 :: h3 :: h4 :: rest2 =>
            match hexDigit h1, hexDigit h2, hexDigit h3, hexDigit h4 with
            | some a, some b, some c2, some d =>
              (jsonStrChars rest2).map
                (fun p => (Char.ofNat (((a * 16 + b) * 16 + c2) * 16 + d) :: p.1, p.2))
            | _, _, _, _ => none
          | _ => none
        else none
    else if c.toNat < 32 then none
    else (jsonStrChars rest).map (fun p => (c :: p.1, p.2))

/-- JSON insignificant whitespace. -/
def jsonWs (c : Char) : Bool :=
  c = ' ' || c = '\t' || c = '\n' || c = '\r'

/-- `JSON.parse` of a full text that must denote a single string literal
(the only shape the command normalization can accept): an opening quote,
a valid string body, and nothing but whitespace after the closing quote. -/
def parseJsonStringText (s : String) : Option String :=
  match s.data with
  | '\x22' :: rest =>
    match jsonStrChars rest with
    | some (content, after) =>
      if after.all jsonWs then some (String.mk content) else none
    | none => none
  | _ => none

/-- Stage 1 of command normalization: if the command starts with a quote,
try `JSON.parse`; on success (necessarily a string) use the decoded string,
on failure keep the original.  A command starting with a single quote is
never valid JSON, so it is always kept. -/
def jsonDecodeStage (c : String) : String :=
  if strStartsWith c "\x22" || strStartsWith c "\x27" then
    (parseJsonStringText c).getD c
  else c

/-- One pass of JS `replace(/\\q/g, 'q')`: left-to-right, non-overlapping. -/
def unescQuotes (q : Char) : List Char → List Char
  | [] => []
  | [c] => [c]
  | c :: b :: t =>
    if c = '\x5c' ∧ b = q then q :: unescQuotes q t
    else c :: unescQuotes q (b :: t)

/-- Stage 2: if the command contains a backslash, unescape `\"` then `\'`. -/
def unescapeStage (c : String) : String :=
  if strContains c '\x5c' then
    String.mk (unescQuotes '\x27' (unescQuotes '\x22' c.data))
  else c

/-- One pass of JS `replace(/([^\\])>/g, '$1 > ')`: any character other
than a backslash followed by `>` becomes that character with spaces around
the `>`; scanning is left-to-right and non-overlapping. -/
def echoSpace : List Char → List Char
  | [] => []
  | [c] => [c]
  | c :: b :: t =>
    if c ≠ '\x5c' ∧ b = '>' then c :: ' ' :: '>' :: ' ' :: echoSpace t
    else c :: echoSpace (b :: t)

/-- Stage 3: for `echo` commands containing `>`, space out the redirection. -/
def echoStage (c : String) : String :=
  if strStartsWith c "echo" && strContains c '>' then String.mk (echoSpace c.data)
  else c

/-- Stage 4: a multi-line command is collapsed to a single line by joining
the trimmed non-empty segments with `; `. -/
def multilineStage (c : String) : String :=
  if strContains c '\n' then
    joinSep "; " (((splitNl c).map jsTrim).filter (fun l => !l.isEmpty))
  else c

/-- The first three stages, as duplicated inside `processTasks` before it
calls `executeCommandInProcess`. -/
def preStages (c : String) : String := echoStage (unescapeStage (jsonDecodeStage c))

/-- Full command normalization as performed by `executeCommandInProcess`. -/
def normalizeCommand (c : String) : String := multilineStage (preStages c)

/-- Cap of the per-shell output buffer (`MAX_BUFFER_SIZE = 10 * 1024`). -/
def MAX_BUFFER_SIZE : Nat := 10 * 1024

/-- Buffer truncation: if the buffer exceeds the cap, keep only the
trailing `MAX_BUFFER_SIZE` characters (`substring(len - MAX)`). -/
def capBuffer (c : String) : String :=
  if MAX_BUFFER_SIZE < c.length then String.mk (c.data.drop (c.length - MAX_BUFFER_SIZE))
  else c

/-- Output-ring append: concatenate, then truncate from the front. -/
def ringAppend (buf bytes : String) : String := capBuffer (buf ++ bytes)

/-- The `[ERROR]` tagging of error output (`isError ? `[ERROR] ${s}` : s`). -/
def errTag (isError : Bool) (s : String) : String :=
  if isError then "[ERROR] " ++ s else s

/-- Whole state of the agent.  `usedPids` is a ghost field recording every
id the agent has ever assigned, supporting the spec's requirement that
shell ids are unique across the agent's lifetime; `lastStatus` is the
`status` field of `lastHeartbeatStatus`. -/
structure AgentState where
  runningProcesses : List (Pid × Shell)
  processOutputBuffer : List (Pid × String)
  processCommandExecuted : List (Pid × Bool)
  process_death : List Pid
  process_created : Option Pid
  usedPids : List Pid
  lastStatus : HbStatus
  deriving DecidableEq, Repr

/-- State at program start: empty maps, empty ledger, `Not yet sent`. -/
def initState : AgentState :=
  { runningProcesses := []
    processOutputBuffer := []
    processCommandExecuted := []
    process_death := []
    process_created := none
    usedPids := []
    lastStatus := HbStatus.notYetSent }

/-- The `if (!processOutputBuffer.has(pid)) processOutputBuffer.set(pid, '')`
prologue of `handleProcessOutput`. -/
def ensureBuffer (pid : Pid) (buffers : List (Pid × String)) : List (Pid × String) :=
  if mapHas pid buffers then buffers else mapSet pid "" buffers

/-- `handleProcessOutput(pid, data, isError)`: record output for a shell.
When the shell's `_expectPwd` flag is set and the last trimmed line of the
chunk looks like a path, adopt it as the new working directory, clear the
flag, and append only the part of the chunk before the last occurrence of
that path; otherwise append the whole chunk.  The buffer is then capped.
The always-true `lines.length > 0` test of the source is dropped
(`split` never returns an empty array).  `_lastOutputTime` is not
modelled (no claim depends on wall-clock time). -/
def handleProcessOutput (st : AgentState) (pid : Pid) (data : String) (isError : Bool) :
    AgentState :=
  let buffers0 := ensureBuffer pid st.processOutputBuffer
  let currentBuffer := (mapGet pid buffers0).getD ""
  match mapGet pid st.runningProcesses with
  | some proc =>
    if proc.expectPwd && !isError then
      let possiblePath := lastTrimmedLine data
      if looksLikePath possiblePath then
        let proc' := { proc with workingDirectory := possiblePath, expectPwd := false }
        let outputWithoutPwd := takeBeforeLast data possiblePath
        { st with
            runningProcesses := mapSet pid proc' st.runningProcesses
            processOutputBuffer :=
              mapSet pid (ringAppend currentBuffer (errTag isError outputWithoutPwd)) buffers0 }
      else
        { st with
            processOutputBuffer :=
              mapSet pid (ringAppend currentBuffer (errTag isError data)) buffers0 }
    else
      { st with
          processOutputBuffer :=
            mapSet pid (ringAppend currentBuffer (errTag isError data)) buffers0 }
  | none =>
    { st with
        processOutputBuffer :=
          mapSet pid (ringAppend currentBuffer (errTag isError data)) buffers0 }

/-- `createNewProcess()`: spawn a shell.  The id and the working directory
come from the environment (`pty.spawn` and `process.cwd()`); the caller of
the step relation supplies them.  Registers the shell with a cleared
command flag and an empty buffer, then publishes `process_created`. -/
def createNewProcess (st : AgentState) (pid : Pid) (cwd : String) : AgentState :=
  { st with
      runningProcesses :=
        mapSet pid { workingDirectory := cwd, expectPwd := false } st.runningProcesses
      processCommandExecuted := mapSet pid false st.processCommandExecuted
      processOutputBuffer := mapSet pid "" st.processOutputBuffer
      process_created := some pid
      usedPids := pid :: st.usedPids }

/-- `executeCommandInProcess(pid, command)`: throws when the shell is
unknown; otherwise normalizes the command, writes it with `; pwd\n`
appended, sets `_expectPwd` and the command-executed flag.  Returns the
new state together with the bytes written to the pty. -/
def executeCommandInProcess (st : AgentState) (pid : Pid) (command : String) :
    Except String (AgentState × String) :=
  match mapGet pid st.runningProcesses with
  | none => Except.error "Process not found"
  | some proc =>
    let processedCommand := normalizeCommand command
    let written := processedCommand ++ "; pwd\n"
    Except.ok
      ({ st with
          runningProcesses := mapSet pid { proc with expectPwd := true } st.runningProcesses
          processCommandExecuted := mapSet pid true st.processCommandExecuted },
        written)

/-- `killProcess(pid)`: absent shells return `false` untouched; otherwise
the pty is killed and the registry entry, command flag and output buffer
are all removed while the id is pushed onto `process_death`. -/
def killProcess (st : AgentState) (pid : Pid) : AgentState × Bool :=
  if mapHas pid st.runningProcesses then
    ({ st with
        runningProcesses := mapDelete pid st.runningProcesses
        processCommandExecuted := mapDelete pid st.processCommandExecuted
        processOutputBuffer := mapDelete pid st.processOutputBuffer
        process_death := st.process_death ++ [pid] },
      true)
  else (st, false)

/-- The pty's `onExit` handler: unconditionally deletes the registry
entry, command flag and output buffer, and pushes the id onto
`process_death`. -/
def onProcessExit (st : AgentState) (pid : Pid) : AgentState :=
  { st with
      runningProcesses := mapDelete pid st.runningProcesses
      processCommandExecuted := mapDelete pid st.processCommandExecuted
      processOutputBuffer := mapDelete pid st.processOutputBuffer
      process_death := st.process_death ++ [pid] }

/-- One entry of the server's `tasks.command` array. -/
structure CommandEntry where
  PID : Pid
  command : String
  deriving DecidableEq, Repr

/-- The server's `tasks` object; every field may be absent. -/
structure Tasks where
  confirm_process_death : Option (List Pid)
  if_require_new_process : Option Int
  command : Option (List CommandEntry)
  kill_process : Option (List Pid)
  deriving DecidableEq, Repr

/-- The server's response `callback` object. -/
structure RespCallback where
  command_executed_confirmed : Option (List Pid)
  process_output_update_succeed : Option (List Pid)
  deriving DecidableEq, Repr

/-- A parsed heartbeat response body. -/
structure HResponse where
  statusCode : Option Int
  callback : Option RespCallback
  tasks : Option Tasks
  deriving DecidableEq, Repr

/-- The `confirm_process_death` loop of `processTasks`: ids that are not
alive and not yet pending are pushed onto `process_death`. -/
def confirmDeaths (st : AgentState) : List Pid → AgentState
  | [] => st
  | pid :: rest =>
    if !mapHas pid st.runningProcesses && !st.process_death.contains pid then
      confirmDeaths { st with process_death := st.process_death ++ [pid] } rest
    else confirmDeaths st rest

/-- The `tasks.command` loop of `processTasks`.  Each entry is skipped
when its command is falsy; otherwise the three pre-normalization stages
are applied and `executeCommandInProcess` is called.  A throw (unknown
shell) aborts the whole batch: the returned flag records whether the
remaining steps of `processTasks` must be skipped. -/
def runCommands : AgentState → List CommandEntry → AgentState × Bool
  | st, [] => (st, false)
  | st, e :: rest =>
    if e.command = "" then runCommands st rest
    else
      match executeCommandInProcess st e.PID (preStages e.command) with
      | Except.error _ => (st, true)
      | Except.ok (st', _) => runCommands st' rest

/-- The `kill_process` loop of `processTasks`. -/
def runKills (st : AgentState) : List Pid → AgentState
  | [] => st
  | pid :: rest =>
    if (killProcess st pid).2 && !(killProcess st pid).1.process_death.contains pid then
      runKills { (killProcess st pid).1 with
                  process_death := (killProcess st pid).1.process_death ++ [pid] } rest
    else runKills (killProcess st pid).1 rest

/-- The `command_executed_confirmed` loop: reset the flag of shells that
are still in the registry. -/
def runCmdAcks (st : AgentState) : List Pid → AgentState
  | [] => st
  | pid :: rest =>
    if mapHas pid st.runningProcesses then
      runCmdAcks { st with processCommandExecuted := mapSet pid false st.processCommandExecuted }
        rest
    else runCmdAcks st rest

/-- The `process_output_update_succeed` loop of `sendHeartbeat`: clear the
output buffer of shells that are still in the registry. -/
def applyOutputClears (st : AgentState) : List Pid → AgentState
  | [] => st
  | pid :: rest =>
    if mapHas pid st.runningProcesses then
      applyOutputClears { st with processOutputBuffer := mapSet pid "" st.processOutputBuffer }
        rest
    else applyOutputClears st rest

/-- `processTasks(tasks, callback)`: death confirmations, then at most one
spawn, then the command batch, then kills, then command-executed acks.
An exception thrown while running commands skips the kill and ack steps
(the whole body sits in one `try`).  `newPid`/`newCwd` are the
environment-provided id and working directory of the spawned shell. -/
def processTasks (st : AgentState) (tasks : Option Tasks) (cb : Option RespCallback)
    (newPid : Pid) (newCwd : String) : AgentState :=
  match tasks with
  | none => st
  | some t =>
    let st1 :=
      match t.confirm_process_death with
      | some l => confirmDeaths st l
      | none => st
    let st2 :=
      if t.if_require_new_process = some 1 then
        let stc := createNewProcess st1 newPid newCwd
        { stc with process_created := some newPid }
      else st1
    let pr :=
      match t.command with
      | some l => runCommands st2 l
      | none => (st2, false)
    if pr.2 then pr.1
    else
      let st4 :=
        match t.kill_process with
        | some l => runKills pr.1 l
        | none => pr.1
      match cb with
      | some c =>
        match c.command_executed_confirmed with
        | some l => runCmdAcks st4 l
        | none => st4
      | none => st4

/-- One element of the outbound `process_output` array.  The prompt
string and the time-derived `status` field are presentation-only and are
not modelled. -/
structure ProcessOutputEntry where
  PID : Pid
  temp : String
  if_command_executed : Nat
  deriving DecidableEq, Repr

/-- The outbound `callback` object: a snapshot of the ack ledger. -/
structure CallbackOut where
  process_death : List Pid
  process_created : Option Pid
  deriving DecidableEq, Repr

/-- The claim-relevant part of the heartbeat payload. -/
structure HeartbeatPayload where
  process_output : List ProcessOutputEntry
  callback : CallbackOut
  deriving DecidableEq, Repr

/-- `prepareHeartbeatData()`: one `process_output` entry per registry
entry, plus a snapshot of the pending callbacks. -/
def prepareHeartbeatData (st : AgentState) : HeartbeatPayload :=
  { process_output :=
      st.runningProcesses.map (fun p =>
        { PID := p.1
          temp := (mapGet p.1 st.processOutputBuffer).getD ""
          if_command_executed :=
            if (mapGet p.1 st.processCommandExecuted).getD false then 1 else 0 })
    callback :=
      { process_death := st.process_death, process_created := st.process_created } }

/-- Outcome of the HTTP POST of one heartbeat. -/
inductive HbOutcome
  | transportError (msg : String)
  | response (r : HResponse)
  deriving DecidableEq, Repr

/-- The `confirm_process_death` list carried by a `tasks` object. -/
def tasksConfirmList : Option Tasks → List Pid
  | some t => t.confirm_process_death.getD []
  | none => []

/-- The `confirm_process_death` list carried by a heartbeat outcome. -/
def confirmList : HbOutcome → List Pid
  | HbOutcome.response r => tasksConfirmList r.tasks
  | _ => []

/-- The first `if` block of the success branch of `sendHeartbeat`:
reset the command-executed flag of every confirmed shell still present. -/
def applyRespAcks (st : AgentState) (cb : Option RespCallback) : AgentState :=
  match cb with
  | some c =>
    match c.command_executed_confirmed with
    | some l => runCmdAcks st l
    | none => st
  | none => st

/-- The second `if` block of the success branch of `sendHeartbeat`:
clear the output buffer of every acknowledged shell still present. -/
def applyRespClears (st : AgentState) (cb : Option RespCallback) : AgentState :=
  match cb with
  | some c =>
    match c.process_output_update_succeed with
    | some l => applyOutputClears st l
    | none => st
  | none => st

/-- `sendHeartbeat()`: build the payload, POST it, then: on a transport
error only record `Failed`; on `statusCode == 1` apply the command acks,
clear acknowledged buffers, reset the ledger, run the tasks and record
`Success`; on any other status code only record `Success`.  Returns the
new state and the payload that was sent. -/
def sendHeartbeat (st : AgentState) (outcome : HbOutcome) (newPid : Pid) (newCwd : String) :
    AgentState × HeartbeatPayload :=
  let payload := prepareHeartbeatData st
  match outcome with
  | HbOutcome.transportError _ => ({ st with lastStatus := HbStatus.failed }, payload)
  | HbOutcome.response r =>
    if r.statusCode = some 1 then
      let st2 := applyRespClears (applyRespAcks st r.callback) r.callback
      let st3 := { st2 with process_death := [], process_created := none }
      let st4 :=
        match r.tasks with
        | some _ => processTasks st3 r.tasks r.callback newPid newCwd
        | none => st3
      ({ st4 with lastStatus := HbStatus.success }, payload)
    else
      ({ st with lastStatus := HbStatus.success }, payload)

/-- Default heartbeat interval (no managed shells). -/
def DEFAULT_HEARTBEAT_INTERVAL : Nat := 5000

/-- Heartbeat interval while shells are managed. -/
def MANAGED_HEARTBEAT_INTERVAL : Nat := 2000

/-- Delay used right after a command is written. -/
def COMMAND_RESPONSE_DELAY : Nat := 1000

/-- The scheduler's single pending timer. -/
structure SchedulerState where
  pending : Option Nat
  deriving DecidableEq, Repr

/-- Delay selection of `scheduleNextHeartbeat(delay)`: a caller-supplied
delay wins; otherwise 2000 ms with a non-empty registry, else 5000 ms. -/
def scheduleDelay (st : AgentState) (delay : Option Nat) : Nat :=
  match delay with
  | some d => d
  | none =>
    if 0 < st.runningProcesses.length then MANAGED_HEARTBEAT_INTERVAL
    else DEFAULT_HEARTBEAT_INTERVAL

/-- `scheduleNextHeartbeat(delay)`: cancel any pending timer and arm a
single new one with the selected delay. -/
def scheduleNextHeartbeat (_sch : SchedulerState) (st : AgentState) (delay : Option Nat) :
    SchedulerState :=
  { pending := some (scheduleDelay st delay) }

/-- What the timer callback does when it fires. -/
inductive FireAction
  | sendOnce
  | reschedule (delayMs : Nat)
  deriving DecidableEq, Repr

/-- Body of the timer callback: run `sendHeartbeat` only when neither a
heartbeat nor a task batch is in progress; otherwise re-arm in 1000 ms. -/
def onTimerFire (heartbeatInProgress processingTasks : Bool) : FireAction :=
  if !heartbeatInProgress && !processingTasks then FireAction.sendOnce
  else FireAction.reschedule 1000

/-- Reachability between agent states.  Each constructor is one event of
the program: a spawn (with an environment-assigned id that is fresh
across the agent's lifetime, per the spec's `ShellId` uniqueness
requirement, and distinct from every id currently pending in
`process_death`), a command execution, a kill, a pty exit notification
(these fire only for ids the agent once spawned), an output chunk, or a
whole heartbeat round (whose internally spawned shell, if any, satisfies
the same freshness requirement). -/
inductive ReachableFrom : AgentState → AgentState → Prop
  | refl (st : AgentState) : ReachableFrom st st
  | spawn {s t : AgentState} {pid : Pid} {cwd : String} (h : ReachableFrom s t)
      (hfresh : pid ∉ t.usedPids ∧ pid ∉ t.process_death) :
      ReachableFrom s (createNewProcess t pid cwd)
  | exec {s t t' : AgentState} {pid : Pid} {cmd w : String} (h : ReachableFrom s t)
      (hx : executeCommandInProcess t pid cmd = Except.ok (t', w)) :
      ReachableFrom s t'
  | kill {s t : AgentState} {pid : Pid} (h : ReachableFrom s t) :
      ReachableFrom s (killProcess t pid).1
  | exit {s t : AgentState} {pid : Pid} (h : ReachableFrom s t)
      (hp : pid ∈ t.usedPids) :
      ReachableFrom s (onProcessExit t pid)
  | output {s t : AgentState} {pid : Pid} {data : String} {isError : Bool}
      (h : ReachableFrom s t) :
      ReachableFrom s (handleProcessOutput t pid data isError)
  | heartbeat {s t : AgentState} {o : HbOutcome} {newPid : Pid} {newCwd : String}
      (h : ReachableFrom s t)
      (hfresh : newPid ∉ t.usedPids ∧ newPid ∉ confirmList o) :
      ReachableFrom s (sendHeartbeat t o newPid newCwd).1

/-- A state the program can reach from start-up. -/
abbrev Reachable (st : AgentState) : Prop := ReachableFrom initState st

/-- The registry / `process_death` disjointness property. -/
abbrev Disj (st : AgentState) : Prop :=
  ∀ q ∈ st.process_death, mapGet q st.runningProcesses = none

/-- A shell id that has been assigned and whose registry slot is gone. -/
abbrev DeadPid (p : Pid) (st : AgentState) : Prop :=
  p ∈ st.usedPids ∧ mapGet p st.runningProcesses = none

/-- Sample state with one shell whose `_expectPwd` flag is set. -/
def stPwdSample : AgentState :=
  { runningProcesses := [(3, { workingDirectory := "/", expectPwd := true })]
    processOutputBuffer := [(3, "")]
    processCommandExecuted := [(3, false)]
    process_death := []
    process_created := none
    usedPids := [3]
    lastStatus := HbStatus.notYetSent }

/-- Sample state with one idle shell and a non-empty ack ledger. -/
def stLedgerSample : AgentState :=
  { runningProcesses := [(2, { workingDirectory := "/", expectPwd := false })]
    processOutputBuffer := [(2, "out")]
    processCommandExecuted := [(2, true)]
    process_death := [8]
    process_created := some 2
    usedPids := [2, 8]
    lastStatus := HbStatus.notYetSent }

/-- Sample state with one shell that has produced buffered output. -/
def stOutputSample : AgentState :=
  handleProcessOutput (createNewProcess initState 6 "/d") 6 "hello" false

/-- Sample response whose status code is not `1`. -/
def respBadStatus : HResponse :=
  { statusCode := some 2
    callback := some
      { command_executed_confirmed := some [2], process_output_update_succeed := some [2] }
    tasks := some
      { confirm_process_death := some [9]
        if_require_new_process := some 1
        command := some [{ PID := 2, command := "ls" }]
        kill_process := some [2] } }

section MapLemmas

variable {β : Type}

theorem mapGet_mapSet_self (k : Pid) (v : β) (l : List (Pid × β)) :
    mapGet k (mapSet k v l) = some v := by
  induction l with
  | nil => simp [mapSet, mapGet]
  | cons p t ih =>
    obtain ⟨k', v'⟩ := p
    by_cases h : k = k'
    · simp [mapSet, h, mapGet]
    · simp [mapSet, h, mapGet, ih]

theorem mapGet_mapSet_ne (k q : Pid) (v : β) (l : List (Pid × β)) (h : q ≠ k) :
    mapGet q (mapSet k v l) = mapGet q l := by
  induction l with
  | nil => simp [mapSet, mapGet, h]
  | cons p t ih =>
    obtain ⟨k', v'⟩ := p
    by_cases hk : k = k'
    · subst hk; simp [mapSet, mapGet, h]
    · by_cases hq : q = k'
      · simp [mapSet, hk, mapGet, hq]
      · simp [mapSet, hk, mapGet, hq, ih]

theorem mapGet_mapDelete_self (k : Pid) (l : List (Pid × β)) :
    mapGet k (mapDelete k l) = none := by
  induction l with
  | nil => simp [mapDelete, mapGet]
  | cons p t ih =>
    obtain ⟨k', v'⟩ := p
    by_cases h : k = k'
    · subst h; simp [mapDelete, ih]
    · simp [mapDelete, h, mapGet, ih]

theorem mapGet_mapDelete_ne (k q : Pid) (l : List (Pid × β)) (h : q ≠ k) :
    mapGet q (mapDelete k l) = mapGet q l := by
  induction l with
  | nil => simp [mapDelete]
  | cons p t ih =>
    obtain ⟨k', v'⟩ := p
    by_cases hk : k = k'
    · subst hk; simp [mapDelete, mapGet, h, ih]
    · by_cases hq : q = k'
      · simp [mapDelete, hk, mapGet, hq]
      · simp [mapDelete, hk, mapGet, hq, ih]

theorem mapDelete_eq_of_get_none (k : Pid) (l : List (Pid × β)) (h : mapGet k l = none) :
    mapDelete k l = l := by
  induction l with
  | nil => simp [mapDelete]
  | cons p t ih =>
    obtain ⟨k', v'⟩ := p
    by_cases hk : k = k'
    · simp [mapGet, hk] at h
    · simp [mapGet, hk] at h
      simp [mapDelete, hk, ih h]

theorem get_none_mapSet_of_get_some (k q : Pid) (v v' : β) (l : List (Pid × β))
    (hsome : mapGet k l = some v) (hnone : mapGet q l = none) :
    mapGet q (mapSet k v' l) = none := by
  by_cases hqk : q = k
  · subst hqk; rw [hsome] at hnone; cases hnone
  · rw [mapGet_mapSet_ne _ _ _ _ hqk]; exact hnone

theorem get_none_mapDelete (k q : Pid) (l : List (Pid × β)) (hnone : mapGet q l = none) :
    mapGet q (mapDelete k l) = none := by
  by_cases hqk : q = k
  · subst hqk; exact mapGet_mapDelete_self _ _
  · rw [mapGet_mapDelete_ne _ _ _ hqk]; exact hnone

theorem get_none_of_has_false (k : Pid) (l : List (Pid × β)) (h : mapHas k l = false) :
    mapGet k l = none := by
  unfold mapHas at h
  cases hg : mapGet k l with
  | none => rfl
  | some v => rw [hg] at h; cases h

theorem key_ne_of_get_none (k : Pid) (l : List (Pid × β)) (h : mapGet k l = none) :
    ∀ e ∈ l, e.1 ≠ k := by
  induction l with
  | nil => intro e he; cases he
  | cons p t ih =>
    obtain ⟨k', v'⟩ := p
    intro e he
    by_cases hk : k = k'
    · simp [mapGet, hk] at h
    · simp [mapGet, hk] at h
      rcases List.mem_cons.mp he with rfl | he'
      · exact fun e => hk e.symm
      · exact ih h e he'

end MapLemmas

theorem killProcess_cases (st : AgentState) (pid : Pid) :
    (mapHas pid st.runningProcesses = false ∧ killProcess st pid = (st, false)) ∨
    (mapHas pid st.runningProcesses = true ∧
      killProcess st pid =
        ({ st with
            runningProcesses := mapDelete pid st.runningProcesses
            processCommandExecuted := mapDelete pid st.processCommandExecuted
            processOutputBuffer := mapDelete pid st.processOutputBuffer
            process_death := st.process_death ++ [pid] }, true)) := by
  unfold killProcess
  cases h : mapHas pid st.runningProcesses
  · exact Or.inl ⟨rfl, by simp⟩
  · exact Or.inr ⟨rfl, by simp⟩

theorem exec_ok_spec (st : AgentState) (pid : Pid) (cmd : String) (st' : AgentState) (w : String)
    (h : executeCommandInProcess st pid cmd = Except.ok (st', w)) :
    ∃ proc, mapGet pid st.runningProcesses = some proc ∧
      st' = { st with
                runningProcesses :=
                  mapSet pid { proc with expectPwd := true } st.runningProcesses
                processCommandExecuted := mapSet pid true st.processCommandExecuted } ∧
      w = normalizeCommand cmd ++ "; pwd\n" := by
  unfold executeCommandInProcess at h
  cases hg : mapGet pid st.runningProcesses with
  | none => rw [hg] at h; cases h
  | some proc =>
    rw [hg] at h
    simp only [Except.ok.injEq, Prod.mk.injEq] at h
    exact ⟨proc, rfl, h.1.symm, h.2.symm⟩

theorem handleOutput_cases (st : AgentState) (pid : Pid) (data : String) (isError : Bool) :
    (∃ B, handleProcessOutput st pid data isError = { st with processOutputBuffer := B }) ∨
    (∃ proc proc' B, mapGet pid st.runningProcesses = some proc ∧
      handleProcessOutput st pid data isError =
        { st with
            runningProcesses := mapSet pid proc' st.runningProcesses
            processOutputBuffer := B }) := by
  unfold handleProcessOutput
  cases hg : mapGet pid st.runningProcesses with
  | none => exact Or.inl ⟨_, rfl⟩
  | some proc =>
    by_cases h1 : (proc.expectPwd && !isError) = true
    · by_cases h2 : looksLikePath (lastTrimmedLine data) = true
      · refine Or.inr
          ⟨proc, { proc with workingDirectory := lastTrimmedLine data, expectPwd := false },
            mapSet pid
              (ringAppend ((mapGet pid (ensureBuffer pid st.processOutputBuffer)).getD "")
                (errTag isError (takeBeforeLast data (lastTrimmedLine data))))
              (ensureBuffer pid st.processOutputBuffer),
            rfl, ?_⟩
        simp [h1, h2]
      · refine Or.inl
          ⟨mapSet pid
              (ringAppend ((mapGet pid (ensureBuffer pid st.processOutputBuffer)).getD "")
                (errTag isError data))
              (ensureBuffer pid st.processOutputBuffer), ?_⟩
        simp [h1, h2]
    · refine Or.inl
        ⟨mapSet pid
            (ringAppend ((mapGet pid (ensureBuffer pid st.processOutputBuffer)).getD "")
              (errTag isError data))
            (ensureBuffer pid st.processOutputBuffer), ?_⟩
      simp [h1]

theorem disj_create (st : AgentState) (pid : Pid) (cwd : String)
    (h : Disj st) (hd : pid ∉ st.process_death) :
    Disj (createNewProcess st pid cwd) := by
  intro q hq
  have hq' : q ∈ st.process_death := hq
  by_cases hqp : q = pid
  · subst hqp; exact absurd hq' hd
  · show mapGet q (mapSet pid _ st.runningProcesses) = none
    rw [mapGet_mapSet_ne _ _ _ _ hqp]
    exact h q hq'

theorem dead_create (st : AgentState) (pid : Pid) (cwd : String) (p : Pid)
    (h : DeadPid p st) (hu : pid ∉ st.usedPids) :
    DeadPid p (createNewProcess st pid cwd) := by
  obtain ⟨hm, hn⟩ := h
  have hne : p ≠ pid := fun e => hu (e ▸ hm)
  refine ⟨List.mem_cons_of_mem _ hm, ?_⟩
  show mapGet p (mapSet pid _ st.runningProcesses) = none
  rw [mapGet_mapSet_ne _ _ _ _ hne]
  exact hn

theorem disj_exec (st st' : AgentState) (pid : Pid) (cmd w : String)
    (hx : executeCommandInProcess st pid cmd = Except.ok (st', w)) (h : Disj st) :
    Disj st' := by
  obtain ⟨proc, hg, hst, -⟩ := exec_ok_spec _ _ _ _ _ hx
  subst hst
  intro q hq
  exact get_none_mapSet_of_get_some _ _ _ _ _ hg (h q hq)

theorem dead_exec (st st' : AgentState) (pid : Pid) (cmd w : String)
    (hx : executeCommandInProcess st pid cmd = Except.ok (st', w)) (p : Pid)
    (h : DeadPid p st) : DeadPid p st' := by
  obtain ⟨proc, hg, hst, -⟩ := exec_ok_spec _ _ _ _ _ hx
  subst hst
  obtain ⟨hm, hn⟩ := h
  have hne : p ≠ pid := by
    rintro rfl; rw [hg] at hn; cases hn
  refine ⟨hm, ?_⟩
  show mapGet p (mapSet pid _ st.runningProcesses) = none
  rw [mapGet_mapSet_ne _ _ _ _ hne]
  exact hn

theorem disj_kill (st : AgentState) (pid : Pid) (h : Disj st) : Disj (killProcess st pid).1 := by
  rcases killProcess_cases st pid with ⟨-, heq⟩ | ⟨-, heq⟩
  · rw [heq]; exact h
  · rw [heq]
    intro q hq
    rcases List.mem_append.mp hq with hq' | hq'
    · exact get_none_mapDelete _ _ _ (h q hq')
    · have : q = pid := by simpa using hq'
      subst this
      exact mapGet_mapDelete_self _ _

theorem dead_kill (st : AgentState) (pid : Pid) (p : Pid) (h : DeadPid p st) :
    DeadPid p (killProcess st pid).1 := by
  obtain ⟨hm, hn⟩ := h
  rcases killProcess_cases st pid with ⟨-, heq⟩ | ⟨-, heq⟩
  · rw [heq]; exact ⟨hm, hn⟩
  · rw [heq]; exact ⟨hm, get_none_mapDelete _ _ _ hn⟩

theorem disj_exit (st : AgentState) (pid : Pid) (h : Disj st) : Disj (onProcessExit st pid) := by
  intro q hq
  rcases List.mem_append.mp hq with hq' | hq'
  · exact get_none_mapDelete _ _ _ (h q hq')
  · have : q = pid := by simpa using hq'
    subst this
    exact mapGet_mapDelete_self _ _

theorem dead_exit (st : AgentState) (pid : Pid) (p : Pid) (h : DeadPid p st) :
    DeadPid p (onProcessExit st pid) :=
  ⟨h.1, get_none_mapDelete _ _ _ h.2⟩

theorem disj_output (st : AgentState) (pid : Pid) (data : String) (isError : Bool)
    (h : Disj st) : Disj (handleProcessOutput st pid data isError) := by
  rcases handleOutput_cases st pid data isError with ⟨B, heq⟩ | ⟨proc, proc', B, hg, heq⟩
  · rw [heq]; exact h
  · rw [heq]
    intro q hq
    exact get_none_mapSet_of_get_some _ _ _ _ _ hg (h q hq)

theorem dead_output (st : AgentState) (pid : Pid) (data : String) (isError : Bool) (p : Pid)
    (h : DeadPid p st) : DeadPid p (handleProcessOutput st pid data isError) := by
  obtain ⟨hm, hn⟩ := h
  rcases handleOutput_cases st pid data isError with ⟨B, heq⟩ | ⟨proc, proc', B, hg, heq⟩
  · rw [heq]; exact ⟨hm, hn⟩
  · rw [heq]
    have hne : p ≠ pid := by
      rintro rfl; rw [hg] at hn; cases hn
    refine ⟨hm, ?_⟩
    show mapGet p (mapSet pid _ st.runningProcesses) = none
    rw [mapGet_mapSet_ne _ _ _ _ hne]
    exact hn

theorem confirmDeaths_cons (st : AgentState) (pid : Pid) (rest : List Pid) :
    confirmDeaths st (pid :: rest) =
      if !mapHas pid st.runningProcesses && !st.process_death.contains pid then
        confirmDeaths { st with process_death := st.process_death ++ [pid] } rest
      else confirmDeaths st rest := rfl

theorem confirmDeaths_frame (l : List Pid) (st : AgentState) :
    (confirmDeaths st l).runningProcesses = st.runningProcesses ∧
    (confirmDeaths st l).processOutputBuffer = st.processOutputBuffer ∧
    (confirmDeaths st l).processCommandExecuted = st.processCommandExecuted ∧
    (confirmDeaths st l).usedPids = st.usedPids := by
  induction l generalizing st with
  | nil => exact ⟨rfl, rfl, rfl, rfl⟩
  | cons pid rest ih =>
    by_cases hc : (!mapHas pid st.runningProcesses && !st.process_death.contains pid) = true
    · rw [confirmDeaths_cons, if_pos hc]
      exact ih { st with process_death := st.process_death ++ [pid] }
    · rw [confirmDeaths_cons, if_neg hc]
      exact ih st

theorem confirmDeaths_death_sub (l : List Pid) (st : AgentState) :
    ∀ q ∈ (confirmDeaths st l).process_death, q ∈ st.process_death ∨ q ∈ l := by
  induction l generalizing st with
  | nil => intro q hq; exact Or.inl hq
  | cons pid rest ih =>
    intro q hq
    by_cases hc : (!mapHas pid st.runningProcesses && !st.process_death.contains pid) = true
    · rw [confirmDeaths_cons, if_pos hc] at hq
      rcases ih _ q hq with hq' | hq'
      · rcases List.mem_append.mp hq' with h1 | h1
        · exact Or.inl h1
        · have : q = pid := by simpa using h1
          exact Or.inr (this ▸ List.mem_cons_self _ _)
      · exact Or.inr (List.mem_cons_of_mem _ hq')
    · rw [confirmDeaths_cons, if_neg hc] at hq
      rcases ih st q hq with hq' | hq'
      · exact Or.inl hq'
      · exact Or.inr (List.mem_cons_of_mem _ hq')

theorem disj_confirmDeaths (l : List Pid) (st : AgentState) (h : Disj st) :
    Disj (confirmDeaths st l) := by
  induction l generalizing st with
  | nil => exact h
  | cons pid rest ih =>
    by_cases hc : (!mapHas pid st.runningProcesses && !st.process_death.contains pid) = true
    · rw [confirmDeaths_cons, if_pos hc]
      apply ih
      intro q hq
      rcases List.mem_append.mp hq with hq' | hq'
      · exact h q hq'
      · have hqp : q = pid := by simpa using hq'
        subst hqp
        have hhas : mapHas q st.runningProcesses = false := by
          rcases (Bool.and_eq_true _ _).mp hc with ⟨h1, -⟩
          simpa using h1
        exact get_none_of_has_false _ _ hhas
    · rw [confirmDeaths_cons, if_neg hc]
      exact ih st h

theorem runCmdAcks_cons (st : AgentState) (pid : Pid) (rest : List Pid) :
    runCmdAcks st (pid :: rest) =
      if mapHas pid st.runningProcesses then
        runCmdAcks { st with processCommandExecuted := mapSet pid false st.processCommandExecuted }
          rest
      else runCmdAcks st rest := rfl

theorem runCmdAcks_frame (l : List Pid) (st : AgentState) :
    (runCmdAcks st l).runningProcesses = st.runningProcesses ∧
    (runCmdAcks st l).processOutputBuffer = st.processOutputBuffer ∧
    (runCmdAcks st l).process_death = st.process_death ∧
    (runCmdAcks st l).process_created = st.process_created ∧
    (runCmdAcks st l).usedPids = st.usedPids := by
  induction l generalizing st with
  | nil => exact ⟨rfl, rfl, rfl, rfl, rfl⟩
  | cons pid rest ih =>
    by_cases hc : (mapHas pid st.runningProcesses) = true
    · rw [runCmdAcks_cons, if_pos hc]
      exact ih { st with processCommandExecuted := mapSet pid false st.processCommandExecuted }
    · rw [runCmdAcks_cons, if_neg hc]
      exact ih st

theorem applyOutputClears_cons (st : AgentState) (pid : Pid) (rest : List Pid) :
    applyOutputClears st (pid :: rest) =
      if mapHas pid st.runningProcesses then
        applyOutputClears { st with processOutputBuffer := mapSet pid "" st.processOutputBuffer }
          rest
      else applyOutputClears st rest := rfl

theorem applyOutputClears_frame (l : List Pid) (st : AgentState) :
    (applyOutputClears st l).runningProcesses = st.runningProcesses ∧
    (applyOutputClears st l).processCommandExecuted = st.processCommandExecuted ∧
    (applyOutputClears st l).process_death = st.process_death ∧
    (applyOutputClears st l).process_created = st.process_created ∧
    (applyOutputClears st l).usedPids = st.usedPids := by
  induction l generalizing st with
  | nil => exact ⟨rfl, rfl, rfl, rfl, rfl⟩
  | cons pid rest ih =>
    by_cases hc : (mapHas pid st.runningProcesses) = true
    · rw [applyOutputClears_cons, if_pos hc]
      exact ih { st with processOutputBuffer := mapSet pid "" st.processOutputBuffer }
    · rw [applyOutputClears_cons, if_neg hc]
      exact ih st

theorem runKills_cons (st : AgentState) (pid : Pid) (rest : List Pid) :
    runKills st (pid :: rest) =
      if (killProcess st pid).2 && !(killProcess st pid).1.process_death.contains pid then
        runKills { (killProcess st pid).1 with
                    process_death := (killProcess st pid).1.process_death ++ [pid] } rest
      else runKills (killProcess st pid).1 rest := rfl

theorem disj_kill_push (st : AgentState) (pid : Pid) (h : Disj st) :
    Disj { (killProcess st pid).1 with
            process_death := (killProcess st pid).1.process_death ++ [pid] } := by
  intro q hq
  rcases List.mem_append.mp hq with hq' | hq'
  · exact disj_kill st pid h q hq'
  · have hqp : q = pid := by simpa using hq'
    subst hqp
    rcases killProcess_cases st q with ⟨hh, heq⟩ | ⟨-, heq⟩
    · rw [heq]
      exact get_none_of_has_false _ _ hh
    · rw [heq]
      exact mapGet_mapDelete_self _ _

theorem disj_runKills (l : List Pid) (st : AgentState) (h : Disj st) :
    Disj (runKills st l) := by
  induction l generalizing st with
  | nil => exact h
  | cons pid rest ih =>
    by_cases hc : ((killProcess st pid).2
        && !(killProcess st pid).1.process_death.contains pid) = true
    · rw [runKills_cons, if_pos hc]
      exact ih _ (disj_kill_push st pid h)
    · rw [runKills_cons, if_neg hc]
      exact ih _ (disj_kill st pid h)

theorem dead_runKills (l : List Pid) (st : AgentState) (p : Pid) (h : DeadPid p st) :
    DeadPid p (runKills st l) := by
  induction l generalizing st with
  | nil => exact h
  | cons pid rest ih =>
    have hk : DeadPid p (killProcess st pid).1 := dead_kill st pid p h
    by_cases hc : ((killProcess st pid).2
        && !(killProcess st pid).1.process_death.contains pid) = true
    · rw [runKills_cons, if_pos hc]
      exact ih _ ⟨hk.1, hk.2⟩
    · rw [runKills_cons, if_neg hc]
      exact ih _ hk

theorem runCommands_cons (st : AgentState) (e : CommandEntry) (rest : List CommandEntry) :
    runCommands st (e :: rest) =
      if e.command = "" then runCommands st rest
      else
        match executeCommandInProcess st e.PID (preStages e.command) with
        | Except.error _ => (st, true)
        | Except.ok (st', _) => runCommands st' rest := rfl

theorem disj_runCommands (l : List CommandEntry) (st : AgentState) (h : Disj st) :
    Disj (runCommands st l).1 := by
  induction l generalizing st with
  | nil => exact h
  | cons e rest ih =>
    rw [runCommands_cons]
    by_cases hc : e.command = ""
    · rw [if_pos hc]; exact ih st h
    · rw [if_neg hc]
      cases hx : executeCommandInProcess st e.PID (preStages e.command) with
      | error err => exact h
      | ok pr =>
        obtain ⟨st', w⟩ := pr
        exact ih st' (disj_exec st st' e.PID (preStages e.command) w hx h)

theorem dead_runCommands (l : List CommandEntry) (st : AgentState) (p : Pid)
    (h : DeadPid p st) : DeadPid p (runCommands st l).1 := by
  induction l generalizing st with
  | nil => exact h
  | cons e rest ih =>
    rw [runCommands_cons]
    by_cases hc : e.command = ""
    · rw [if_pos hc]; exact ih st h
    · rw [if_neg hc]
      cases hx : executeCommandInProcess st e.PID (preStages e.command) with
      | error err => exact h
      | ok pr =>
        obtain ⟨st', w⟩ := pr
        exact ih st' (dead_exec st st' e.PID (preStages e.command) w hx p h)

theorem disj_processTasks (st : AgentState) (tasks : Option Tasks) (cb : Option RespCallback)
    (newPid : Pid) (newCwd : String) (h : Disj st)
    (hd : newPid ∉ st.process_death) (hcl : newPid ∉ tasksConfirmList tasks) :
    Disj (processTasks st tasks cb newPid newCwd) := by
  cases tasks with
  | none => exact h
  | some t =>
    have hconf : Disj (match t.confirm_process_death with
        | some l => confirmDeaths st l
        | none => st) := by
      cases t.confirm_process_death with
      | none => exact h
      | some l => exact disj_confirmDeaths l st h
    have hconfd : newPid ∉ (match t.confirm_process_death with
        | some l => confirmDeaths st l
        | none => st).process_death := by
      cases hcp : t.confirm_process_death with
      | none => exact hd
      | some l =>
        intro hmem
        rcases confirmDeaths_death_sub l st newPid hmem with h1 | h1
        · exact hd h1
        · exact hcl (by simpa [tasksConfirmList, hcp] using h1)
    simp only [processTasks]
    set st1 := (match t.confirm_process_death with
      | some l => confirmDeaths st l
      | none => st) with hst1
    have hst2 : Disj (if t.if_require_new_process = some 1 then
        { createNewProcess st1 newPid newCwd with process_created := some newPid }
      else st1) := by
      by_cases hreq : t.if_require_new_process = some 1
      · rw [if_pos hreq]
        intro q hq
        exact disj_create st1 newPid newCwd hconf hconfd q hq
      · rw [if_neg hreq]
        exact hconf
    set st2 := (if t.if_require_new_process = some 1 then
        { createNewProcess st1 newPid newCwd with process_created := some newPid }
      else st1) with hst2def
    have hcmd : Disj (match t.command with
        | some l => runCommands st2 l
        | none => (st2, false)).1 := by
      cases t.command with
      | none => exact hst2
      | some l => exact disj_runCommands l st2 hst2
    set pr := (match t.command with
      | some l => runCommands st2 l
      | none => (st2, false)) with hprdef
    by_cases hab : pr.2 = true
    · rw [if_pos hab]; exact hcmd
    · rw [if_neg hab]
      have hkills : Disj (match t.kill_process with
          | some l => runKills pr.1 l
          | none => pr.1) := by
        cases t.kill_process with
        | none => exact hcmd
        | some l => exact disj_runKills l pr.1 hcmd
      set st4 := (match t.kill_process with
        | some l => runKills pr.1 l
        | none => pr.1) with hst4def
      cases cb with
      | none => exact hkills
      | some c =>
        cases hcc : c.command_executed_confirmed with
        | none => simpa [hcc] using hkills
        | some l =>
          simp only [hcc]
          intro q hq
          have hfr := runCmdAcks_frame l st4
          rw [hfr.1]
          exact hkills q (by rw [hfr.2.2.1] at hq; exact hq)

theorem dead_processTasks (st : AgentState) (tasks : Option Tasks) (cb : Option RespCallback)
    (newPid : Pid) (newCwd : String) (p : Pid) (h : DeadPid p st)
    (hu : newPid ∉ st.usedPids) :
    DeadPid p (processTasks st tasks cb newPid newCwd) := by
  cases tasks with
  | none => exact h
  | some t =>
    have hconf : DeadPid p (match t.confirm_process_death with
        | some l => confirmDeaths st l
        | none => st) := by
      cases t.confirm_process_death with
      | none => exact h
      | some l =>
        have hfr := confirmDeaths_frame l st
        exact ⟨by rw [hfr.2.2.2]; exact h.1, by rw [hfr.1]; exact h.2⟩
    have hconfu : newPid ∉ (match t.confirm_process_death with
        | some l => confirmDeaths st l
        | none => st).usedPids := by
      cases t.confirm_process_death with
      | none => exact hu
      | some l =>
        have hfr := confirmDeaths_frame l st
        rw [hfr.2.2.2]
        exact hu
    simp only [processTasks]
    set st1 := (match t.confirm_process_death with
      | some l => confirmDeaths st l
      | none => st) with hst1
    have hst2 : DeadPid p (if t.if_require_new_process = some 1 then
        { createNewProcess st1 newPid newCwd with process_created := some newPid }
      else st1) := by
      by_cases hreq : t.if_require_new_process = some 1
      · rw [if_pos hreq]
        have hd := dead_create st1 newPid newCwd p hconf hconfu
        exact ⟨hd.1, hd.2⟩
      · rw [if_neg hreq]
        exact hconf
    set st2 := (if t.if_require_new_process = some 1 then
        { createNewProcess st1 newPid newCwd with process_created := some newPid }
      else st1) with hst2def
    have hcmd : DeadPid p (match t.command with
        | some l => runCommands st2 l
        | none => (st2, false)).1 := by
      cases t.command with
      | none => exact hst2
      | some l => exact dead_runCommands l st2 p hst2
    set pr := (match t.command with
      | some l => runCommands st2 l
      | none => (st2, false)) with hprdef
    by_cases hab : pr.2 = true
    · rw [if_pos hab]; exact hcmd
    · rw [if_neg hab]
      have hkills : DeadPid p (match t.kill_process with
          | some l => runKills pr.1 l
          | none => pr.1) := by
        cases t.kill_process with
        | none => exact hcmd
        | some l => exact dead_runKills l pr.1 p hcmd
      set st4 := (match t.kill_process with
        | some l => runKills pr.1 l
        | none => pr.1) with hst4def
      cases cb with
      | none => exact hkills
      | some c =>
        cases hcc : c.command_executed_confirmed with
        | none => simpa [hcc] using hkills
        | some l =>
          simp only [hcc]
          have hfr := runCmdAcks_frame l st4
          exact ⟨by rw [hfr.2.2.2.2]; exact hkills.1, by rw [hfr.1]; exact hkills.2⟩

theorem sendHeartbeat_payload (st : AgentState) (o : HbOutcome) (newPid : Pid)
    (newCwd : String) :
    (sendHeartbeat st o newPid newCwd).2 = prepareHeartbeatData st := by
  cases o with
  | transportError msg => rfl
  | response r =>
    simp only [sendHeartbeat]
    by_cases hsc : r.statusCode = some 1
    · rw [if_pos hsc]
    · rw [if_neg hsc]

theorem applyRespAcks_frame (cb : Option RespCallback) (st : AgentState) :
    (applyRespAcks st cb).runningProcesses = st.runningProcesses ∧
    (applyRespAcks st cb).processOutputBuffer = st.processOutputBuffer ∧
    (applyRespAcks st cb).process_death = st.process_death ∧
    (applyRespAcks st cb).process_created = st.process_created ∧
    (applyRespAcks st cb).usedPids = st.usedPids := by
  cases cb with
  | none => exact ⟨rfl, rfl, rfl, rfl, rfl⟩
  | some c =>
    cases hcc : c.command_executed_confirmed with
    | none => simp [applyRespAcks, hcc]
    | some l => simpa [applyRespAcks, hcc] using runCmdAcks_frame l st

theorem applyRespClears_frame (cb : Option RespCallback) (st : AgentState) :
    (applyRespClears st cb).runningProcesses = st.runningProcesses ∧
    (applyRespClears st cb).processCommandExecuted = st.processCommandExecuted ∧
    (applyRespClears st cb).process_death = st.process_death ∧
    (applyRespClears st cb).process_created = st.process_created ∧
    (applyRespClears st cb).usedPids = st.usedPids := by
  cases cb with
  | none => exact ⟨rfl, rfl, rfl, rfl, rfl⟩
  | some c =>
    cases hcc : c.process_output_update_succeed with
    | none => simp [applyRespClears, hcc]
    | some l => simpa [applyRespClears, hcc] using applyOutputClears_frame l st

theorem disj_sendHeartbeat (st : AgentState) (o : HbOutcome) (newPid : Pid) (newCwd : String)
    (h : Disj st) (hcl : newPid ∉ confirmList o) :
    Disj (sendHeartbeat st o newPid newCwd).1 := by
  cases o with
  | transportError msg => exact h
  | response r =>
    simp only [sendHeartbeat]
    by_cases hsc : r.statusCode = some 1
    · rw [if_pos hsc]
      have hdisj3 : Disj { applyRespClears (applyRespAcks st r.callback) r.callback with
          process_death := [], process_created := none } := by
        intro q hq
        cases hq
      cases htk : r.tasks with
      | none => exact hdisj3
      | some t =>
        simp only [htk]
        intro q hq
        refine disj_processTasks _ (some t) r.callback newPid newCwd hdisj3 ?_ ?_ q hq
        · intro hmem
          cases hmem
        · intro hmem
          exact hcl (by simpa [confirmList, htk] using hmem)
    · rw [if_neg hsc]
      exact h

theorem dead_sendHeartbeat (st : AgentState) (o : HbOutcome) (newPid : Pid) (newCwd : String)
    (p : Pid) (h : DeadPid p st) (hu : newPid ∉ st.usedPids) :
    DeadPid p (sendHeartbeat st o newPid newCwd).1 := by
  cases o with
  | transportError msg => exact h
  | response r =>
    simp only [sendHeartbeat]
    by_cases hsc : r.statusCode = some 1
    · rw [if_pos hsc]
      have hfa := applyRespAcks_frame r.callback st
      have hfc := applyRespClears_frame r.callback (applyRespAcks st r.callback)
      have h3 : DeadPid p { applyRespClears (applyRespAcks st r.callback) r.callback with
          process_death := [], process_created := none } := by
        refine ⟨?_, ?_⟩
        · show p ∈ (applyRespClears (applyRespAcks st r.callback) r.callback).usedPids
          rw [hfc.2.2.2.2, hfa.2.2.2.2]
          exact h.1
        · show mapGet p
            (applyRespClears (applyRespAcks st r.callback) r.callback).runningProcesses = none
          rw [hfc.1, hfa.1]
          exact h.2
      have hu3 : newPid ∉ ({ applyRespClears (applyRespAcks st r.callback) r.callback with
          process_death := [], process_created := none } : AgentState).usedPids := by
        show newPid ∉ (applyRespClears (applyRespAcks st r.callback) r.callback).usedPids
        rw [hfc.2.2.2.2, hfa.2.2.2.2]
        exact hu
      cases htk : r.tasks with
      | none => exact h3
      | some t =>
        simp only [htk]
        exact dead_processTasks _ (some t) r.callback newPid newCwd p h3 hu3
    · rw [if_neg hsc]
      exact h

theorem reachableFrom_preserves (s t : AgentState) (h : ReachableFrom s t) :
    (Disj s → Disj t) ∧ (∀ p, DeadPid p s → DeadPid p t) := by
  induction h with
  | refl => exact ⟨id, fun _ => id⟩
  | spawn h hfresh ih =>
    exact ⟨fun hd => disj_create _ _ _ (ih.1 hd) hfresh.2,
      fun p hp => dead_create _ _ _ _ (ih.2 p hp) hfresh.1⟩
  | exec h hx ih =>
    exact ⟨fun hd => disj_exec _ _ _ _ _ hx (ih.1 hd),
      fun p hp => dead_exec _ _ _ _ _ hx p (ih.2 p hp)⟩
  | kill h ih =>
    exact ⟨fun hd => disj_kill _ _ (ih.1 hd), fun p hp => dead_kill _ _ _ (ih.2 p hp)⟩
  | exit h hp ih =>
    exact ⟨fun hd => disj_exit _ _ (ih.1 hd), fun p hq => dead_exit _ _ _ (ih.2 p hq)⟩
  | output h ih =>
    exact ⟨fun hd => disj_output _ _ _ _ (ih.1 hd), fun p hp => dead_output _ _ _ _ _ (ih.2 p hp)⟩
  | heartbeat h hfresh ih =>
    exact ⟨fun hd => disj_sendHeartbeat _ _ _ _ (ih.1 hd) hfresh.2,
      fun p hp => dead_sendHeartbeat _ _ _ _ p (ih.2 p hp) hfresh.1⟩

theorem prepare_PID_ne (st : AgentState) (p : Pid)
    (h : mapGet p st.runningProcesses = none) :
    ∀ e ∈ (prepareHeartbeatData st).process_output, e.PID ≠ p := by
  intro e he
  simp only [prepareHeartbeatData, List.mem_map] at he
  obtain ⟨a, ha, rfl⟩ := he
  exact key_ne_of_get_none p st.runningProcesses h a ha

/-- C1: when the heartbeat POST fails with a transport error or timeout,
the ack ledger is unchanged: the `process_death` list and the
`process_created` value held before the send are exactly the ones carried
in the `callback` field of the next heartbeat's payload, no output ring is
cleared, no command-pending flag changes, the registry is untouched, and
the attempt is recorded as `Failed`. -/
theorem transport_error_preserves_ledger (st : AgentState) (msg : String)
    (newPid newPid2 : Pid) (newCwd newCwd2 : String) (o : HbOutcome) :
    (sendHeartbeat st (HbOutcome.transportError msg) newPid newCwd).1.process_death =
        st.process_death ∧
    (sendHeartbeat st (HbOutcome.transportError msg) newPid newCwd).1.process_created =
        st.process_created ∧
    (sendHeartbeat st (HbOutcome.transportError msg) newPid newCwd).1.processOutputBuffer =
        st.processOutputBuffer ∧
    (sendHeartbeat st (HbOutcome.transportError msg) newPid newCwd).1.processCommandExecuted =
        st.processCommandExecuted ∧
    (sendHeartbeat st (HbOutcome.transportError msg) newPid newCwd).1.runningProcesses =
        st.runningProcesses ∧
    (sendHeartbeat st (HbOutcome.transportError msg) newPid newCwd).1.lastStatus =
        HbStatus.failed ∧
    (sendHeartbeat (sendHeartbeat st (HbOutcome.transportError msg) newPid newCwd).1
        o newPid2 newCwd2).2.callback =
      { process_death := st.process_death, process_created := st.process_created } := by
  refine ⟨rfl, rfl, rfl, rfl, rfl, rfl, ?_⟩
  rw [sendHeartbeat_payload]
  rfl

/-- C2: at every reachable state of the agent, the set of shell ids in the
registry and the set of ids pending in `process_death` are disjoint.  The
step relation assumes, per the spec's `ShellId` uniqueness requirement,
that every spawned id is fresh: distinct from every id the agent has ever
assigned and from every id currently pending in `process_death`. -/
theorem registry_death_disjoint (st : AgentState) (h : Reachable st) :
    ∀ q ∈ st.process_death, mapGet q st.runningProcesses = none :=
  (reachableFrom_preserves initState st h).1 (fun q hq => absurd hq (List.not_mem_nil q))

/-- C2 witness: after spawning shell 4 and killing it, 4 is pending in
`process_death` and, by the invariant, absent from the registry. -/
theorem registry_death_disjoint_witness :
    mapGet 4 ((killProcess (createNewProcess initState 4 "/h") 4).1).runningProcesses = none :=
  registry_death_disjoint _
    (ReachableFrom.kill (ReachableFrom.spawn (ReachableFrom.refl initState) (by decide)))
    4 (by decide)

/-- C3 counterexample: spawn shell 7, kill it (which pushes 7 onto
`process_death`), then deliver the pty's exit notification: the handler
pushes 7 again, so `process_death` is `[7, 7]` — the exit is not a no-op
on the ledger and the list is not a set. -/
theorem exit_after_kill_duplicates_death :
    (onProcessExit (killProcess (createNewProcess initState 7 "/w") 7).1 7).process_death =
      [7, 7] ∧
    ¬ (onProcessExit (killProcess (createNewProcess initState 7 "/w") 7).1
        7).process_death.Nodup := by
  constructor <;> decide

/-- C3 (amended): once kill(id) has removed the shell, the pty's later
exit notification deletes nothing further from the registry, buffer and
flag maps (those deletes are no-ops on the already-empty slots), but it
unconditionally appends the id to `process_death` again; `process_death`
is a duplicate-admitting list, not a set. -/
theorem exit_after_kill_only_appends (st : AgentState) (pid : Pid)
    (hr : mapGet pid st.runningProcesses = none)
    (hb : mapGet pid st.processOutputBuffer = none)
    (hc : mapGet pid st.processCommandExecuted = none) :
    onProcessExit st pid = { st with process_death := st.process_death ++ [pid] } := by
  unfold onProcessExit
  rw [mapDelete_eq_of_get_none _ _ hr, mapDelete_eq_of_get_none _ _ hb,
    mapDelete_eq_of_get_none _ _ hc]

/-- C3 witness: the amended statement applied to the state obtained by
spawning and killing shell 9. -/
theorem exit_after_kill_only_appends_witness :
    mapGet 9 ((killProcess (createNewProcess initState 9 "/w") 9).1).runningProcesses = none ∧
    onProcessExit (killProcess (createNewProcess initState 9 "/w") 9).1 9 =
      { (killProcess (createNewProcess initState 9 "/w") 9).1 with
          process_death :=
            (killProcess (createNewProcess initState 9 "/w") 9).1.process_death ++ [9] } :=
  ⟨by decide, exit_after_kill_only_appends _ 9 (by decide) (by decide) (by decide)⟩

/-- C4 counterexample: a response with `statusCode = 2` (≠ 1) is recorded
as `Success`, not `Failed` as the claim states — the `lastHeartbeatStatus`
assignment in the success path runs unconditionally once the POST
completed. -/
theorem bad_status_not_failed :
    (sendHeartbeat stLedgerSample (HbOutcome.response respBadStatus) 5 "/c").1.lastStatus ≠
      HbStatus.failed ∧
    (sendHeartbeat stLedgerSample (HbOutcome.response respBadStatus) 5 "/c").1.lastStatus =
      HbStatus.success := by
  constructor <;> decide

/-- C4 (amended): for every heartbeat whose HTTP exchange succeeds but
whose response has `statusCode ≠ 1`, the agent ignores the response's acks
and tasks (no command-pending flag is reset, no ring is cleared, no task
runs), preserves the ledger — but records the heartbeat as `Success`, not
`Failed`: the resulting state is exactly the old state with
`lastStatus := Success`. -/
theorem bad_status_ignores_acks_and_tasks (st : AgentState) (r : HResponse)
    (newPid : Pid) (newCwd : String) (h : r.statusCode ≠ some 1) :
    (sendHeartbeat st (HbOutcome.response r) newPid newCwd).1 =
      { st with lastStatus := HbStatus.success } := by
  simp only [sendHeartbeat]
  rw [if_neg h]

/-- C4 witness: the amended statement applied to a concrete state with a
non-empty ledger and a response with `statusCode = 2` full of acks and
tasks, all of which are ignored. -/
theorem bad_status_ignores_acks_and_tasks_witness :
    respBadStatus.statusCode ≠ some 1 ∧
    (sendHeartbeat stLedgerSample (HbOutcome.response respBadStatus) 5 "/c").1 =
      { stLedgerSample with lastStatus := HbStatus.success } :=
  ⟨by decide, bad_status_ignores_acks_and_tasks stLedgerSample respBadStatus 5 "/c" (by decide)⟩

/-- C5: a command whose text (after the quote/escape/echo pre-stages)
contains embedded newlines is written to the shell as the single line
obtained by joining the trimmed non-empty segments with `; `, followed by
the agent-appended `; pwd` and a newline; the command-pending flag and
`expect_pwd` are both set. -/
theorem multiline_command_collapse (st : AgentState) (pid : Pid) (proc : Shell) (cmd : String)
    (hrun : mapGet pid st.runningProcesses = some proc)
    (hnl : strContains (preStages cmd) '\n' = true) :
    ∃ st', executeCommandInProcess st pid cmd =
        Except.ok (st',
          joinSep "; " (((splitNl (preStages cmd)).map jsTrim).filter (fun l => !l.isEmpty)) ++
            "; pwd\n") ∧
      mapGet pid st'.processCommandExecuted = some true ∧
      mapGet pid st'.runningProcesses = some { proc with expectPwd := true } := by
  have hw : normalizeCommand cmd =
      joinSep "; " (((splitNl (preStages cmd)).map jsTrim).filter (fun l => !l.isEmpty)) := by
    unfold normalizeCommand multilineStage
    rw [if_pos hnl]
  have hx : executeCommandInProcess st pid cmd =
      Except.ok ({ st with
          runningProcesses := mapSet pid { proc with expectPwd := true } st.runningProcesses
          processCommandExecuted := mapSet pid true st.processCommandExecuted },
        normalizeCommand cmd ++ "; pwd\n") := by
    unfold executeCommandInProcess
    rw [hrun]
  refine ⟨{ st with
      runningProcesses := mapSet pid { proc with expectPwd := true } st.runningProcesses
      processCommandExecuted := mapSet pid true st.processCommandExecuted }, ?_, ?_, ?_⟩
  · rw [hx, hw]
  · exact mapGet_mapSet_self _ _ _
  · exact mapGet_mapSet_self _ _ _

/-- C5 witness: for the command consisting of the line `ls`, a newline and
the line `pwd`, the bytes written are exactly `ls; pwd; pwd` followed by a
newline, and both flags are set. -/
theorem multiline_command_collapse_witness :
    mapGet 2 stLedgerSample.runningProcesses =
      some { workingDirectory := "/", expectPwd := false } ∧
    strContains (preStages "ls\npwd") '\n' = true ∧
    (∃ st', executeCommandInProcess stLedgerSample 2 "ls\npwd" =
        Except.ok (st', "ls; pwd; pwd\n") ∧
      mapGet 2 st'.processCommandExecuted = some true ∧
      mapGet 2 st'.runningProcesses =
        some { workingDirectory := "/", expectPwd := true }) := by
  refine ⟨by decide, by decide, ?_⟩
  obtain ⟨st', hx, h1, h2⟩ :=
    multiline_command_collapse stLedgerSample 2 { workingDirectory := "/", expectPwd := false }
      "ls\npwd" (by decide) (by decide)
  have hs : joinSep "; "
      (((splitNl (preStages "ls\npwd")).map jsTrim).filter (fun l => !l.isEmpty)) ++
        "; pwd\n" = "ls; pwd; pwd\n" := by decide
  refine ⟨st', ?_, h1, h2⟩
  rw [← hs]
  exact hx

/-- C6 counterexample: with `expect_pwd` set, on the chunk
`"a\n/tmp\n"` the matched path is `/tmp`; eliding exactly the path
substring would leave `"a\n" ++ "\n" = "a\n\n"` in the ring, but the code
truncates at `lastIndexOf` and stores only `"a\n"` — the byte after the
path is lost too. -/
theorem pwd_elision_drops_trailing_bytes :
    mapGet 3 (handleProcessOutput stPwdSample 3 "a\n/tmp\n" false).processOutputBuffer =
      some "a\n" ∧
    mapGet 3 (handleProcessOutput stPwdSample 3 "a\n/tmp\n" false).processOutputBuffer ≠
      some "a\n\n" := by
  constructor <;> decide

/-- C6 (amended): while `expect_pwd` is set, if the last trimmed line of a
chunk looks like a path, then `cwd` is updated to that line, `expect_pwd`
is cleared, and the chunk is truncated at the last occurrence of the path:
the prefix before that occurrence is appended to the ring while the path
and every byte after it are dropped. -/
theorem pwd_detection_truncates_at_path (st : AgentState) (pid : Pid) (proc : Shell)
    (chunk : String)
    (hrun : mapGet pid st.runningProcesses = some proc)
    (hexp : proc.expectPwd = true)
    (hpath : looksLikePath (lastTrimmedLine chunk) = true) :
    mapGet pid (handleProcessOutput st pid chunk false).runningProcesses =
      some { proc with workingDirectory := lastTrimmedLine chunk, expectPwd := false } ∧
    mapGet pid (handleProcessOutput st pid chunk false).processOutputBuffer =
      some (ringAppend ((mapGet pid (ensureBuffer pid st.processOutputBuffer)).getD "")
        (takeBeforeLast chunk (lastTrimmedLine chunk))) ∧
    (handleProcessOutput st pid chunk false).process_death = st.process_death ∧
    (handleProcessOutput st pid chunk false).process_created = st.process_created := by
  have heq : handleProcessOutput st pid chunk false =
      { st with
          runningProcesses := mapSet pid
            { proc with workingDirectory := lastTrimmedLine chunk, expectPwd := false }
            st.runningProcesses
          processOutputBuffer := mapSet pid
            (ringAppend ((mapGet pid (ensureBuffer pid st.processOutputBuffer)).getD "")
              (takeBeforeLast chunk (lastTrimmedLine chunk)))
            (ensureBuffer pid st.processOutputBuffer) } := by
    simp [handleProcessOutput, hrun, hexp, hpath, errTag]
  rw [heq]
  exact ⟨mapGet_mapSet_self _ _ _, mapGet_mapSet_self _ _ _, rfl, rfl⟩

/-- C6 witness: the amended statement evaluated on a concrete chunk
`"x\n/srv\n"`: the working directory becomes `/srv`, the flag clears, and
the ring receives only `"x\n"`. -/
theorem pwd_detection_truncates_at_path_witness :
    mapGet 3 (handleProcessOutput stPwdSample 3 "x\n/srv\n" false).runningProcesses =
      some { workingDirectory := "/srv", expectPwd := false } ∧
    mapGet 3 (handleProcessOutput stPwdSample 3 "x\n/srv\n" false).processOutputBuffer =
      some "x\n" := by
  have h := pwd_detection_truncates_at_path stPwdSample 3
    { workingDirectory := "/", expectPwd := true } "x\n/srv\n" (by decide) (by decide)
    (by decide)
  refine ⟨?_, ?_⟩
  · rw [h.1]; decide
  · rw [h.2.1]; decide

/-- C7: the output-ring append concatenates the new bytes onto the buffer
and, whenever the result exceeds 10240 characters, keeps exactly the
trailing 10240 (a suffix of the concatenation); in particular a single
chunk longer than 10 KiB leaves the ring holding exactly the last 10240
characters of the concatenation. -/
theorem ring_append_truncates (buf chunk : String) :
    ((buf ++ chunk).length ≤ MAX_BUFFER_SIZE → ringAppend buf chunk = buf ++ chunk) ∧
    (MAX_BUFFER_SIZE < (buf ++ chunk).length →
      (ringAppend buf chunk).length = MAX_BUFFER_SIZE ∧
      (ringAppend buf chunk).data =
        ((buf ++ chunk).data.reverse.take MAX_BUFFER_SIZE).reverse ∧
      (ringAppend buf chunk).data <:+ (buf ++ chunk).data) ∧
    (MAX_BUFFER_SIZE < chunk.length →
      (ringAppend buf chunk).data =
        ((buf ++ chunk).data.reverse.take MAX_BUFFER_SIZE).reverse) := by
  have hdlen : (buf ++ chunk).length = (buf ++ chunk).data.length := rfl
  have key : MAX_BUFFER_SIZE < (buf ++ chunk).length →
      (ringAppend buf chunk).length = MAX_BUFFER_SIZE ∧
      (ringAppend buf chunk).data =
        ((buf ++ chunk).data.reverse.take MAX_BUFFER_SIZE).reverse ∧
      (ringAppend buf chunk).data <:+ (buf ++ chunk).data := by
    intro h
    unfold ringAppend capBuffer
    rw [if_pos h]
    have h2 := List.rtake_eq_reverse_take_reverse (buf ++ chunk).data MAX_BUFFER_SIZE
    unfold List.rtake at h2
    rw [← hdlen] at h2
    generalize hk : (buf ++ chunk).length - MAX_BUFFER_SIZE = k at h2 ⊢
    refine ⟨?_, ?_, ?_⟩
    · show ((buf ++ chunk).data.drop k).length = MAX_BUFFER_SIZE
      rw [List.length_drop]
      omega
    · show (buf ++ chunk).data.drop k =
        ((buf ++ chunk).data.reverse.take MAX_BUFFER_SIZE).reverse
      exact h2
    · show (buf ++ chunk).data.drop k <:+ (buf ++ chunk).data
      exact List.drop_suffix _ _
  refine ⟨?_, key, ?_⟩
  · intro h
    unfold ringAppend capBuffer
    rw [if_neg (by omega)]
  · intro h
    have h' : MAX_BUFFER_SIZE < (buf ++ chunk).length := by
      rw [String.length_append]
      omega
    exact (key h').2.1

/-- C7 witness: appending a 10241-character chunk to an empty ring leaves
exactly 10240 characters. -/
theorem ring_append_truncates_witness :
    MAX_BUFFER_SIZE < ("" ++ String.mk (List.replicate 10241 'a')).length ∧
    (ringAppend "" (String.mk (List.replicate 10241 'a'))).length = MAX_BUFFER_SIZE := by
  have h2 : (String.mk (List.replicate 10241 'a')).length = 10241 := by
    show (List.replicate 10241 'a').length = 10241
    exact List.length_replicate _ _
  have h0 : ("" : String).length = 0 := rfl
  have hlt : MAX_BUFFER_SIZE < ("" ++ String.mk (List.replicate 10241 'a')).length := by
    rw [String.length_append, h2, h0]
    norm_num [MAX_BUFFER_SIZE]
  exact ⟨hlt, ((ring_append_truncates "" (String.mk (List.replicate 10241 'a'))).2.1 hlt).1⟩

/-- C9: killing a shell (or observing its exit) removes its registry
entry, its output buffer and its command-executed flag in that same step,
and in every state reachable afterwards no heartbeat's `process_output`
carries an entry for that id — the unshipped buffered output is discarded
for good. -/
theorem death_discards_buffered_output (st : AgentState) (pid : Pid)
    (hrun : mapHas pid st.runningProcesses = true) (hused : pid ∈ st.usedPids) :
    (mapGet pid (killProcess st pid).1.runningProcesses = none ∧
      mapGet pid (killProcess st pid).1.processOutputBuffer = none ∧
      mapGet pid (killProcess st pid).1.processCommandExecuted = none) ∧
    (mapGet pid (onProcessExit st pid).runningProcesses = none ∧
      mapGet pid (onProcessExit st pid).processOutputBuffer = none ∧
      mapGet pid (onProcessExit st pid).processCommandExecuted = none) ∧
    (∀ st', ReachableFrom (killProcess st pid).1 st' →
      ∀ e ∈ (prepareHeartbeatData st').process_output, e.PID ≠ pid) ∧
    (∀ st', ReachableFrom (onProcessExit st pid) st' →
      ∀ e ∈ (prepareHeartbeatData st').process_output, e.PID ≠ pid) := by
  rcases killProcess_cases st pid with ⟨hh, -⟩ | ⟨-, heq⟩
  · rw [hh] at hrun; cases hrun
  · have hdeadK : DeadPid pid (killProcess st pid).1 := by
      rw [heq]
      exact ⟨hused, mapGet_mapDelete_self _ _⟩
    have hdeadE : DeadPid pid (onProcessExit st pid) :=
      ⟨hused, mapGet_mapDelete_self _ _⟩
    refine ⟨?_, ⟨mapGet_mapDelete_self _ _, mapGet_mapDelete_self _ _,
      mapGet_mapDelete_self _ _⟩, ?_, ?_⟩
    · rw [heq]
      exact ⟨mapGet_mapDelete_self _ _, mapGet_mapDelete_self _ _, mapGet_mapDelete_self _ _⟩
    · intro st' hreach e he
      exact prepare_PID_ne st' pid
        ((reachableFrom_preserves _ _ hreach).2 pid hdeadK).2 e he
    · intro st' hreach e he
      exact prepare_PID_ne st' pid
        ((reachableFrom_preserves _ _ hreach).2 pid hdeadE).2 e he

/-- C9 witness: shell 6 has `"hello"` buffered but not yet shipped; after
`killProcess` its buffer entry is gone and the next heartbeat's
`process_output` has no entry for 6. -/
theorem death_discards_buffered_output_witness :
    mapHas 6 stOutputSample.runningProcesses = true ∧
    6 ∈ stOutputSample.usedPids ∧
    mapGet 6 stOutputSample.processOutputBuffer = some "hello" ∧
    mapGet 6 (killProcess stOutputSample 6).1.processOutputBuffer = none ∧
    (∀ e ∈ (prepareHeartbeatData (killProcess stOutputSample 6).1).process_output,
      e.PID ≠ 6) := by
  have h := death_discards_buffered_output stOutputSample 6 (by decide) (by decide)
  exact ⟨by decide, by decide, by decide, h.1.2.1, h.2.2.1 _ (ReachableFrom.refl _)⟩

theorem handleOutput_no_path_eq (st : AgentState) (pid : Pid) (proc : Shell) (chunk : String)
    (hrun : mapGet pid st.runningProcesses = some proc)
    (hexp : proc.expectPwd = true)
    (hnopath : looksLikePath (lastTrimmedLine chunk) = false) :
    handleProcessOutput st pid chunk false =
      { st with
          processOutputBuffer := mapSet pid
            (ringAppend ((mapGet pid (ensureBuffer pid st.processOutputBuffer)).getD "") chunk)
            (ensureBuffer pid st.processOutputBuffer) } := by
  simp [handleProcessOutput, hrun, hexp, hnopath, errTag]

theorem foldOutput_no_path (pid : Pid) (proc : Shell) (hexp : proc.expectPwd = true) :
    ∀ (chunks : List String) (st : AgentState),
      mapGet pid st.runningProcesses = some proc →
      (∀ c ∈ chunks, looksLikePath (lastTrimmedLine c) = false) →
      mapGet pid
        ((chunks.foldl (fun s c => handleProcessOutput s pid c false) st)).runningProcesses =
        some proc := by
  intro chunks
  induction chunks with
  | nil => intro st h _; exact h
  | cons c rest ih =>
    intro st h hall
    have h1 : handleProcessOutput st pid c false =
        { st with
            processOutputBuffer := mapSet pid
              (ringAppend ((mapGet pid (ensureBuffer pid st.processOutputBuffer)).getD "") c)
              (ensureBuffer pid st.processOutputBuffer) } :=
      handleOutput_no_path_eq st pid proc c h hexp (hall c (List.mem_cons_self c rest))
    rw [List.foldl_cons]
    apply ih
    · rw [h1]; exact h
    · intro x hx; exact hall x (List.mem_cons_of_mem _ hx)

/-- C10: while `expect_pwd` is set, a chunk whose last trimmed line does
not parse as a path is appended to the ring whole (subject only to the
10 KiB cap), the working directory is unchanged and `expect_pwd` stays
set; the flag persists across arbitrarily many such chunks. -/
theorem expect_pwd_persists (st : AgentState) (pid : Pid) (proc : Shell) (chunk : String)
    (hrun : mapGet pid st.runningProcesses = some proc)
    (hexp : proc.expectPwd = true)
    (hnopath : looksLikePath (lastTrimmedLine chunk) = false) :
    (handleProcessOutput st pid chunk false).runningProcesses = st.runningProcesses ∧
    mapGet pid (handleProcessOutput st pid chunk false).processOutputBuffer =
      some (ringAppend ((mapGet pid (ensureBuffer pid st.processOutputBuffer)).getD "") chunk) ∧
    (∀ chunks : List String,
      (∀ c ∈ chunks, looksLikePath (lastTrimmedLine c) = false) →
      mapGet pid
        ((chunks.foldl (fun s c => handleProcessOutput s pid c false) st)).runningProcesses =
        some proc) := by
  have h1 := handleOutput_no_path_eq st pid proc chunk hrun hexp hnopath
  refine ⟨by rw [h1], ?_, ?_⟩
  · rw [h1]
    exact mapGet_mapSet_self _ _ _
  · intro chunks hall
    exact foldOutput_no_path pid proc hexp chunks st hrun hall

/-- C10 witness: with `expect_pwd` set, the chunk `"no path here\n"` is
appended whole, the shell record is unchanged, and after two more
non-path chunks the flag is still set. -/
theorem expect_pwd_persists_witness :
    mapGet 3 stPwdSample.runningProcesses =
      some { workingDirectory := "/", expectPwd := true } ∧
    looksLikePath (lastTrimmedLine "no path here\n") = false ∧
    (handleProcessOutput stPwdSample 3 "no path here\n" false).runningProcesses =
      stPwdSample.runningProcesses ∧
    mapGet 3 (handleProcessOutput stPwdSample 3 "no path here\n" false).processOutputBuffer =
      some "no path here\n" ∧
    mapGet 3 ((["a", "b"].foldl (fun s c => handleProcessOutput s 3 c false)
        stPwdSample)).runningProcesses =
      some { workingDirectory := "/", expectPwd := true } := by
  have h := expect_pwd_persists stPwdSample 3
    { workingDirectory := "/", expectPwd := true } "no path here\n"
    (by decide) (by decide) (by decide)
  refine ⟨by decide, by decide, h.1, ?_, ?_⟩
  · rw [h.2.1]; decide
  · exact h.2.2 ["a", "b"] (by decide)

/-- C8: every call to `scheduleNextHeartbeat` replaces the pending timer
with a single new one whose delay is the caller-supplied delay if one was
given, else 2000 ms when the registry is non-empty, else 5000 ms; and a
timer that fires while a heartbeat or a task batch is in progress does not
send but reschedules with a 1000 ms delay. -/
theorem scheduler_delay_policy (sch : SchedulerState) (st : AgentState) (d : Nat)
    (hb tk : Bool) :
    (scheduleNextHeartbeat sch st (some d)).pending = some d ∧
    (st.runningProcesses ≠ [] → (scheduleNextHeartbeat sch st none).pending = some 2000) ∧
    (st.runningProcesses = [] → (scheduleNextHeartbeat sch st none).pending = some 5000) ∧
    (hb = true ∨ tk = true → onTimerFire hb tk = FireAction.reschedule 1000) ∧
    (hb = false → tk = false → onTimerFire hb tk = FireAction.sendOnce) := by
  refine ⟨rfl, ?_, ?_, ?_, ?_⟩
  · intro h
    have hpos : 0 < st.runningProcesses.length := List.length_pos.mpr h
    simp [scheduleNextHeartbeat, scheduleDelay, MANAGED_HEARTBEAT_INTERVAL, hpos]
  · intro h
    simp [scheduleNextHeartbeat, scheduleDelay, DEFAULT_HEARTBEAT_INTERVAL, h]
  · rintro (rfl | rfl)
    · rfl
    · cases hb <;> rfl
  · rintro rfl rfl
    rfl

/-- C8 witness: a supplied delay wins; with no shells the delay is
5000 ms; with one shell it is 2000 ms; a busy timer reschedules at
1000 ms rather than sending. -/
theorem scheduler_delay_policy_witness :
    (scheduleNextHeartbeat { pending := none } initState (some 1234)).pending = some 1234 ∧
    (scheduleNextHeartbeat { pending := none } initState none).pending = some 5000 ∧
    (scheduleNextHeartbeat { pending := none } (createNewProcess initState 1 "/a")
        none).pending = some 2000 ∧
    onTimerFire true false = FireAction.reschedule 1000 ∧
    onTimerFire false false = FireAction.sendOnce :=
  ⟨(scheduler_delay_policy { pending := none } initState 1234 true false).1,
    (scheduler_delay_policy { pending := none } initState 1234 true false).2.2.1 rfl,
    (scheduler_delay_policy { pending := none } (createNewProcess initState 1 "/a") 1234
      true false).2.1 (by decide),
    (scheduler_delay_policy { pending := none } initState 1234 true false).2.2.2.1
      (Or.inl rfl),
    (scheduler_delay_policy { pending := none } initState 1234 false false).2.2.2.2 rfl rfl⟩

end AgentClient
